import Mathlib

/-!
Verification of the character-time alignment pipeline of `src/app.py`
(`split_audio_by_characters` and `recognize_speech`).

The aligner consumes silence-delimited chunks in order.  For each chunk the
Python code obtains a recognition result for the chunk audio (text, or one of
the two caught exceptions `UnknownValueError` / `RequestError`), and a chunk
duration.  We embed the loop body faithfully: durations are modelled as exact
rationals (`ℚ`), the recognition result of a chunk as a tagged value, and the
loop as structural recursion threading the running offset `current_time`.
-/

/-- An entry of the aligner output: the Python `{char: current_time}`
singleton dict appended to `char_times`. -/
structure CharTime where
  symbol : String
  onset : ℚ
deriving DecidableEq, Repr

/-- The recognition result for one chunk, as distinguished by the
`try/except` in the loop body of `split_audio_by_characters`:
the returned text, or one of the two caught exception kinds. -/
inductive RecognitionOutcome where
  | text (s : String)
  | noSpeech
  | serviceError (msg : String)
deriving DecidableEq, Repr

/-- The marker string produced by the f-string `"[Error: " + e + "]"`. -/
def errorSymbol (msg : String) : String := "[Error: " ++ msg ++ "]"

/-- The `for char in chunk_text` loop: append one entry per character at the
current offset, then advance the offset by `step` (`chunk_duration / len(chunk_text)`,
constant through the loop).  Returns the emitted entries and the offset after
the loop. -/
def emitChars (step : ℚ) : List Char → ℚ → List CharTime × ℚ
  | [], t => ([], t)
  | c :: cs, t =>
    let r := emitChars step cs (t + step)
    ({ symbol := String.mk [c], onset := t } :: r.1, r.2)

/-- One iteration of the chunk loop of `split_audio_by_characters`:
given the running offset and the chunk (duration, recognition result),
return the entries appended to `char_times` and the new running offset.
Mirrors the three branches of the `try/except`.  Note that for `text ""`
the character loop runs zero times: nothing is emitted and the offset is
unchanged (the division `chunk_duration / len(chunk_text)` is never
evaluated in Python in that case; in `ℚ` it is `d / 0 = 0` and unused). -/
def alignChunk (t : ℚ) (chunk : ℚ × RecognitionOutcome) : List CharTime × ℚ :=
  match chunk.2 with
  | RecognitionOutcome.text s => emitChars (chunk.1 / (s.length : ℚ)) s.data t
  | RecognitionOutcome.noSpeech => ([{ symbol := " ", onset := t }], t + chunk.1)
  | RecognitionOutcome.serviceError m => ([{ symbol := errorSymbol m, onset := t }], t)

/-- The chunk loop, starting from running offset `t`: concatenation of the
entries of each chunk in input order, threading the offset. -/
def alignFrom : ℚ → List (ℚ × RecognitionOutcome) → List CharTime
  | _, [] => []
  | t, c :: cs => (alignChunk t c).1 ++ alignFrom (alignChunk t c).2 cs

/-- The aligner `split_audio_by_characters`, starting from `current_time = 0.0`,
abstracted over the per-chunk durations and recognition results delivered by
the external segmenter and recognizer. -/
def split_audio_by_characters (chunks : List (ℚ × RecognitionOutcome)) : List CharTime :=
  alignFrom 0 chunks

/-- The value of `current_time` after the chunk loop, starting from `t`. -/
def finalOffset : ℚ → List (ℚ × RecognitionOutcome) → ℚ
  | t, [] => t
  | t, c :: cs => finalOffset (alignChunk t c).2 cs

/-- What the `recognizer.recognize_google` call in `recognize_speech` does
for a given audio input: return a text, or raise one of the two caught
exception kinds. -/
inductive GoogleResult where
  | success (text : String)
  | unknownValueError
  | requestError (e : String)
deriving DecidableEq, Repr

/-- The wrapper `recognize_speech`: the recognized text verbatim on success,
`"[Unrecognized]"` when `UnknownValueError` is caught, and the f-string
`"[Error: {e}]"` when `RequestError e` is caught. -/
def recognize_speech : GoogleResult → String
  | GoogleResult.success t => t
  | GoogleResult.unknownValueError => "[Unrecognized]"
  | GoogleResult.requestError e => errorSymbol e

/-! ### Basic facts about the character loop -/

theorem emitChars_length (step : ℚ) (l : List Char) (t : ℚ) :
    (emitChars step l t).1.length = l.length := by
  induction l generalizing t with
  | nil => rfl
  | cons c cs ih => simp [emitChars, ih]

theorem emitChars_getElem? (step : ℚ) (l : List Char) (t : ℚ) (i : ℕ) :
    (emitChars step l t).1[i]? =
      l[i]?.map fun c => { symbol := String.mk [c], onset := t + i * step } := by
  induction l generalizing t i with
  | nil => rfl
  | cons c cs ih =>
    cases i with
    | zero => simp [emitChars]
    | succ j =>
      have hfst : (emitChars step (c :: cs) t).1 =
          { symbol := String.mk [c], onset := t } :: (emitChars step cs (t + step)).1 := rfl
      rw [hfst, List.getElem?_cons_succ, List.getElem?_cons_succ, ih]
      cases h : cs[j]? with
      | none => simp
      | some a =>
        simp only [Option.map_some']
        congr 2
        push_cast
        ring

theorem emitChars_snd (step : ℚ) (l : List Char) (t : ℚ) :
    (emitChars step l t).2 = t + l.length * step := by
  induction l generalizing t with
  | nil => simp [emitChars]
  | cons c cs ih =>
    have hsnd : (emitChars step (c :: cs) t).2 = (emitChars step cs (t + step)).2 := rfl
    rw [hsnd, ih, List.length_cons]
    push_cast
    ring

theorem emitChars_le_snd (step : ℚ) (l : List Char) (t : ℚ) (hstep : 0 ≤ step) :
    t ≤ (emitChars step l t).2 := by
  rw [emitChars_snd]
  have h : (0 : ℚ) ≤ (l.length : ℚ) * step := mul_nonneg (Nat.cast_nonneg _) hstep
  linarith

theorem emitChars_onset_bounds (step : ℚ) (l : List Char) (hstep : 0 ≤ step) :
    ∀ t : ℚ, ∀ e ∈ (emitChars step l t).1,
      t ≤ e.onset ∧ e.onset ≤ (emitChars step l t).2 := by
  induction l with
  | nil => intro t e he; simp [emitChars] at he
  | cons c cs ih =>
    intro t e he
    have hfst : (emitChars step (c :: cs) t).1 =
        { symbol := String.mk [c], onset := t } :: (emitChars step cs (t + step)).1 := rfl
    have hsnd : (emitChars step (c :: cs) t).2 = (emitChars step cs (t + step)).2 := rfl
    rw [hfst] at he
    rw [hsnd]
    rcases List.mem_cons.mp he with h1 | h2
    · subst h1
      have h3 := emitChars_le_snd step cs (t + step) hstep
      exact ⟨le_refl t, by show t ≤ _; linarith⟩
    · rcases ih (t + step) e h2 with ⟨ha, hb⟩
      exact ⟨by linarith, hb⟩

theorem emitChars_pairwise (step : ℚ) (l : List Char) (hstep : 0 ≤ step) :
    ∀ t : ℚ, (emitChars step l t).1.Pairwise fun a b => a.onset ≤ b.onset := by
  induction l with
  | nil => intro t; simp [emitChars]
  | cons c cs ih =>
    intro t
    have hfst : (emitChars step (c :: cs) t).1 =
        { symbol := String.mk [c], onset := t } :: (emitChars step cs (t + step)).1 := rfl
    rw [hfst]
    refine List.Pairwise.cons ?_ (ih (t + step))
    intro b hb
    have h := (emitChars_onset_bounds step cs hstep (t + step) b hb).1
    show t ≤ b.onset
    linarith

/-! ### Per-chunk facts -/

theorem alignChunk_le_snd (t : ℚ) (c : ℚ × RecognitionOutcome) (hd : 0 ≤ c.1) :
    t ≤ (alignChunk t c).2 := by
  rcases c with ⟨d, o⟩
  cases o with
  | text s =>
    exact emitChars_le_snd (d / (s.length : ℚ)) s.data t
      (div_nonneg hd (Nat.cast_nonneg _))
  | noSpeech =>
    show t ≤ t + d
    have hd2 : (0 : ℚ) ≤ d := hd
    linarith
  | serviceError m => exact le_refl t

theorem alignChunk_onset_bounds (t : ℚ) (c : ℚ × RecognitionOutcome) (hd : 0 ≤ c.1) :
    ∀ e ∈ (alignChunk t c).1, t ≤ e.onset ∧ e.onset ≤ (alignChunk t c).2 := by
  rcases c with ⟨d, o⟩
  cases o with
  | text s =>
    exact emitChars_onset_bounds (d / (s.length : ℚ)) s.data
      (div_nonneg hd (Nat.cast_nonneg _)) t
  | noSpeech =>
    intro e he
    have he2 : e = { symbol := " ", onset := t } := by simpa [alignChunk] using he
    subst he2
    have hd2 : (0 : ℚ) ≤ d := hd
    exact ⟨le_refl t, by show t ≤ t + d; linarith⟩
  | serviceError m =>
    intro e he
    have he2 : e = { symbol := errorSymbol m, onset := t } := by simpa [alignChunk] using he
    subst he2
    exact ⟨le_refl t, le_refl t⟩

theorem alignChunk_pairwise (t : ℚ) (c : ℚ × RecognitionOutcome) (hd : 0 ≤ c.1) :
    (alignChunk t c).1.Pairwise fun a b => a.onset ≤ b.onset := by
  rcases c with ⟨d, o⟩
  cases o with
  | text s =>
    exact emitChars_pairwise (d / (s.length : ℚ)) s.data
      (div_nonneg hd (Nat.cast_nonneg _)) t
  | noSpeech => simp [alignChunk]
  | serviceError m => simp [alignChunk]

theorem alignChunk_length_pos (t : ℚ) (c : ℚ × RecognitionOutcome)
    (h : c.2 ≠ RecognitionOutcome.text "") : 1 ≤ (alignChunk t c).1.length := by
  rcases c with ⟨d, o⟩
  cases o with
  | text s =>
    have hs : s ≠ "" := by simpa using h
    have hdata : s.data ≠ [] := by
      intro hnil
      exact hs (String.ext (by rw [hnil]))
    show 1 ≤ (emitChars (d / (s.length : ℚ)) s.data t).1.length
    rw [emitChars_length]
    exact List.length_pos.mpr hdata
  | noSpeech => simp [alignChunk]
  | serviceError m => simp [alignChunk]

/-! ### Whole-run facts -/

theorem alignFrom_onset_ge (chunks : List (ℚ × RecognitionOutcome)) :
    ∀ t : ℚ, (∀ p ∈ chunks, 0 ≤ p.1) → ∀ e ∈ alignFrom t chunks, t ≤ e.onset := by
  induction chunks with
  | nil => intro t _ e he; simp [alignFrom] at he
  | cons c cs ih =>
    intro t hd e he
    have hc : 0 ≤ c.1 := hd c (List.mem_cons_self c cs)
    have hcs : ∀ p ∈ cs, 0 ≤ p.1 := fun p hp => hd p (List.mem_cons_of_mem c hp)
    rw [show alignFrom t (c :: cs) =
      (alignChunk t c).1 ++ alignFrom (alignChunk t c).2 cs from rfl] at he
    rcases List.mem_append.mp he with h1 | h2
    · exact (alignChunk_onset_bounds t c hc e h1).1
    · have h3 := ih (alignChunk t c).2 hcs e h2
      have h4 := alignChunk_le_snd t c hc
      linarith

theorem alignFrom_pairwise (chunks : List (ℚ × RecognitionOutcome)) :
    ∀ t : ℚ, (∀ p ∈ chunks, 0 ≤ p.1) →
      (alignFrom t chunks).Pairwise fun a b => a.onset ≤ b.onset := by
  induction chunks with
  | nil => intro t _; simp [alignFrom]
  | cons c cs ih =>
    intro t hd
    have hc : 0 ≤ c.1 := hd c (List.mem_cons_self c cs)
    have hcs : ∀ p ∈ cs, 0 ≤ p.1 := fun p hp => hd p (List.mem_cons_of_mem c hp)
    rw [show alignFrom t (c :: cs) =
      (alignChunk t c).1 ++ alignFrom (alignChunk t c).2 cs from rfl]
    rw [List.pairwise_append]
    refine ⟨alignChunk_pairwise t c hc, ih (alignChunk t c).2 hcs, ?_⟩
    intro a ha b hb
    have h1 := (alignChunk_onset_bounds t c hc a ha).2
    have h2 := alignFrom_onset_ge cs (alignChunk t c).2 hcs b hb
    show a.onset ≤ b.onset
    linarith

theorem alignFrom_length_ge (chunks : List (ℚ × RecognitionOutcome)) :
    ∀ t : ℚ, (∀ p ∈ chunks, p.2 ≠ RecognitionOutcome.text "") →
      chunks.length ≤ (alignFrom t chunks).length := by
  induction chunks with
  | nil => intro t _; simp [alignFrom]
  | cons c cs ih =>
    intro t h
    rw [show alignFrom t (c :: cs) =
      (alignChunk t c).1 ++ alignFrom (alignChunk t c).2 cs from rfl]
    rw [List.length_append, List.length_cons]
    have h1 := alignChunk_length_pos t c (h c (List.mem_cons_self c cs))
    have h2 := ih (alignChunk t c).2 (fun p hp => h p (List.mem_cons_of_mem c hp))
    omega

theorem finalOffset_eq_add_sum (chunks : List (ℚ × RecognitionOutcome)) :
    ∀ t : ℚ,
      (∀ p ∈ chunks, (∀ m, p.2 ≠ RecognitionOutcome.serviceError m) ∧
        p.2 ≠ RecognitionOutcome.text "") →
      finalOffset t chunks = t + (chunks.map Prod.fst).sum := by
  induction chunks with
  | nil => intro t _; simp [finalOffset]
  | cons c cs ih =>
    intro t h
    have hc := h c (List.mem_cons_self c cs)
    have hcs := fun p hp => h p (List.mem_cons_of_mem c hp)
    have hstep : (alignChunk t c).2 = t + c.1 := by
      rcases c with ⟨d, o⟩
      cases o with
      | text s =>
        have hs : s ≠ "" := by simpa using hc.2
        have hn : (s.length : ℚ) ≠ 0 := by
          refine Nat.cast_ne_zero.mpr ?_
          intro h0
          apply hs
          refine String.ext ?_
          have : s.data.length = 0 := h0
          simpa using List.length_eq_zero.mp this
        show (emitChars (d / (s.length : ℚ)) s.data t).2 = t + d
        rw [emitChars_snd]
        have hl : ((s.data.length : ℚ)) = ((s.length : ℚ)) := rfl
        rw [hl, mul_comm, div_mul_cancel₀ d hn]
      | noSpeech => rfl
      | serviceError m => exact absurd rfl (hc.1 m)
    rw [show finalOffset t (c :: cs) = finalOffset (alignChunk t c).2 cs from rfl,
      ih (alignChunk t c).2 hcs, hstep, List.map_cons, List.sum_cons]
    ring

/-! ### Claim theorems -/

/-- C1: for a chunk recognized as non-empty text `s` of length `n` and duration `d`,
the aligner emits exactly `n` entries for that chunk, the `i`-th entry being the
`i`-th character of `s` (left-to-right) at onset `chunk_start + i * (d / n)`, and
the running offset after the chunk equals `chunk_start + d` exactly: in exact
rational arithmetic the `n` per-character increments of `d / n` sum to `d`. -/
theorem text_chunk_alignment (t d : ℚ) (s : String) (h : s.length ≠ 0) :
    (alignChunk t (d, RecognitionOutcome.text s)).1.length = s.length ∧
    (∀ i : ℕ, (alignChunk t (d, RecognitionOutcome.text s)).1[i]? =
      s.data[i]?.map fun c =>
        { symbol := String.mk [c], onset := t + i * (d / (s.length : ℚ)) }) ∧
    (alignChunk t (d, RecognitionOutcome.text s)).2 = t + d := by
  refine ⟨?_, ?_, ?_⟩
  · show (emitChars (d / (s.length : ℚ)) s.data t).1.length = s.length
    rw [emitChars_length]
    rfl
  · intro i
    exact emitChars_getElem? (d / (s.length : ℚ)) s.data t i
  · show (emitChars (d / (s.length : ℚ)) s.data t).2 = t + d
    rw [emitChars_snd]
    have hn : ((s.length : ℚ)) ≠ 0 := Nat.cast_ne_zero.mpr h
    have hl : ((s.data.length : ℚ)) = ((s.length : ℚ)) := rfl
    rw [hl, mul_comm, div_mul_cancel₀ d hn]

/-- Witness for `text_chunk_alignment` at `t = 0`, `d = 1`, `s = "ab"`. -/
theorem text_chunk_alignment_witness :
    "ab".length ≠ 0 ∧
    ((alignChunk 0 ((1 : ℚ), RecognitionOutcome.text "ab")).1.length = "ab".length ∧
      (∀ i : ℕ, (alignChunk 0 ((1 : ℚ), RecognitionOutcome.text "ab")).1[i]? =
        "ab".data[i]?.map fun c =>
          { symbol := String.mk [c], onset := 0 + i * ((1 : ℚ) / ("ab".length : ℚ)) }) ∧
      (alignChunk 0 ((1 : ℚ), RecognitionOutcome.text "ab")).2 = 0 + 1) :=
  ⟨by decide, text_chunk_alignment 0 1 "ab" (by decide)⟩

/-- C2 counterexample: a chunk whose recognition result is the empty string
contributes no entry at all (the character loop runs zero times), so the output
can be shorter than the chunk list: one chunk, zero entries. -/
theorem empty_text_chunk_emits_nothing :
    (split_audio_by_characters [((1 : ℚ), RecognitionOutcome.text "")]).length = 0 := rfl

/-- C2 (amended): every outcome other than empty text (`Text` of non-empty text,
`NoSpeechDetected`, `ServiceError`) contributes at least one entry, so for inputs
containing no empty-text outcome the output length is at least the number of
chunks; entries appear in input chunk order. -/
theorem aligned_output_covers_chunks (chunks : List (ℚ × RecognitionOutcome))
    (h : ∀ p ∈ chunks, p.2 ≠ RecognitionOutcome.text "") :
    chunks.length ≤ (split_audio_by_characters chunks).length :=
  alignFrom_length_ge chunks 0 h

/-- Witness for `aligned_output_covers_chunks` on one chunk of each outcome kind. -/
theorem aligned_output_covers_chunks_witness :
    (∀ p ∈ [((1 : ℚ), RecognitionOutcome.text "abc"),
        ((1 : ℚ), RecognitionOutcome.noSpeech),
        ((1 : ℚ), RecognitionOutcome.serviceError "boom")],
      p.2 ≠ RecognitionOutcome.text "") ∧
    [((1 : ℚ), RecognitionOutcome.text "abc"),
        ((1 : ℚ), RecognitionOutcome.noSpeech),
        ((1 : ℚ), RecognitionOutcome.serviceError "boom")].length ≤
      (split_audio_by_characters [((1 : ℚ), RecognitionOutcome.text "abc"),
        ((1 : ℚ), RecognitionOutcome.noSpeech),
        ((1 : ℚ), RecognitionOutcome.serviceError "boom")]).length :=
  ⟨by decide, aligned_output_covers_chunks _ (by decide)⟩

/-- C3 counterexample: for outcome `Text("")` the aligner emits zero entries (not
one blank entry) and leaves the running offset unchanged (it does not advance it
by the chunk duration 1). -/
theorem empty_text_chunk_not_blank :
    (alignChunk 0 ((1 : ℚ), RecognitionOutcome.text "")).1 = [] ∧
    (alignChunk 0 ((1 : ℚ), RecognitionOutcome.text "")).2 = 0 := ⟨rfl, rfl⟩

/-- C3 (amended): for `NoSpeechDetected` the aligner emits exactly one blank-symbol
entry at the current offset and advances the offset by the full chunk duration;
for `Text("")` it emits no entry and leaves the offset unchanged. -/
theorem blank_and_empty_chunk_behavior (t d : ℚ) :
    alignChunk t (d, RecognitionOutcome.noSpeech) =
      ([{ symbol := " ", onset := t }], t + d) ∧
    alignChunk t (d, RecognitionOutcome.text "") = ([], t) := ⟨rfl, rfl⟩

/-- C4: for `ServiceError(m)` the aligner emits exactly one entry at the current
offset whose symbol is the error marker containing `m`, and the running offset is
left unchanged for that chunk. -/
theorem service_error_chunk_entry (t d : ℚ) (m : String) :
    (alignChunk t (d, RecognitionOutcome.serviceError m)).1 =
      [{ symbol := errorSymbol m, onset := t }] ∧
    (alignChunk t (d, RecognitionOutcome.serviceError m)).2 = t ∧
    ∃ pre post : String, errorSymbol m = pre ++ m ++ post :=
  ⟨rfl, rfl, "[Error: ", "]", rfl⟩

/-- C5 counterexample: the aligner has no duration check, so a negative-duration
chunk is not rejected; on the claim's own input the output is not `[("y", 0.0)]`
(it has two entries). -/
theorem negative_duration_chunk_not_skipped :
    split_audio_by_characters
        [((-1 : ℚ), RecognitionOutcome.text "x"), ((1 : ℚ), RecognitionOutcome.text "y")] ≠
      [{ symbol := "y", onset := 0 }] := by
  intro h
  have h2 := congrArg List.length h
  norm_num [split_audio_by_characters, alignFrom, alignChunk, emitChars] at h2

/-- C5 (amended): a chunk with negative duration is processed like any other:
its entries are emitted at the current offset and the offset advances by the
(negative) duration, so the input `[(d=-1, Text("x")), (d=1.0, Text("y"))]`
yields `[("x", 0.0), ("y", -1.0)]`.  (A NaN duration has no counterpart in the
exact rational model.) -/
theorem negative_duration_chunk_processed :
    split_audio_by_characters
        [((-1 : ℚ), RecognitionOutcome.text "x"), ((1 : ℚ), RecognitionOutcome.text "y")] =
      [{ symbol := "x", onset := 0 }, { symbol := "y", onset := -1 }] := by
  norm_num [split_audio_by_characters, alignFrom, alignChunk, emitChars,
    show "x".length = 1 from rfl, show "y".length = 1 from rfl,
    show "x".data = ['x'] from rfl, show "y".data = ['y'] from rfl,
    show String.mk ['x'] = "x" from rfl, show String.mk ['y'] = "y" from rfl]

/-- C6: on the three chunks `(1.0, Text("ab"))`, `(0.5, NoSpeechDetected)`,
`(2.0, Text("c"))` the aligner outputs exactly
`[("a", 0.0), ("b", 0.5), (" ", 1.0), ("c", 1.5)]`. -/
theorem end_to_end_three_chunks :
    split_audio_by_characters [((1 : ℚ), RecognitionOutcome.text "ab"),
      ((1/2 : ℚ), RecognitionOutcome.noSpeech), ((2 : ℚ), RecognitionOutcome.text "c")] =
      [{ symbol := "a", onset := 0 }, { symbol := "b", onset := 1/2 },
       { symbol := " ", onset := 1 }, { symbol := "c", onset := 3/2 }] := by
  norm_num [split_audio_by_characters, alignFrom, alignChunk, emitChars,
    show "ab".length = 2 from rfl, show "c".length = 1 from rfl,
    show "ab".data = ['a', 'b'] from rfl, show "c".data = ['c'] from rfl,
    show String.mk ['a'] = "a" from rfl, show String.mk ['b'] = "b" from rfl,
    show String.mk ['c'] = "c" from rfl]

/-- C7 counterexample: with a single `ServiceError` chunk of duration 1 the final
running offset is 0, while the sum of chunk durations is 1, so the total advance
does not always equal the sum of the durations. -/
theorem final_offset_misses_error_duration :
    finalOffset 0 [((1 : ℚ), RecognitionOutcome.serviceError "boom")] = 0 ∧
    (([((1 : ℚ), RecognitionOutcome.serviceError "boom")]).map Prod.fst).sum = 1 := by
  exact ⟨rfl, by simp⟩

/-- C7 (amended): for inputs in which no chunk outcome is a `ServiceError` and no
chunk outcome is empty text, the final running offset (starting from 0) equals
the sum of the chunk durations; `ServiceError` and empty-text chunks advance the
offset by zero. -/
theorem final_offset_sums_durations (chunks : List (ℚ × RecognitionOutcome))
    (h : ∀ p ∈ chunks, (∀ m, p.2 ≠ RecognitionOutcome.serviceError m) ∧
      p.2 ≠ RecognitionOutcome.text "") :
    finalOffset 0 chunks = (chunks.map Prod.fst).sum := by
  rw [finalOffset_eq_add_sum chunks 0 h, zero_add]

/-- Witness for `final_offset_sums_durations` on a text chunk and a no-speech chunk. -/
theorem final_offset_sums_durations_witness :
    (∀ p ∈ [((1 : ℚ), RecognitionOutcome.text "ab"), ((1 : ℚ), RecognitionOutcome.noSpeech)],
      (∀ m, p.2 ≠ RecognitionOutcome.serviceError m) ∧
        p.2 ≠ RecognitionOutcome.text "") ∧
    finalOffset 0
        [((1 : ℚ), RecognitionOutcome.text "ab"), ((1 : ℚ), RecognitionOutcome.noSpeech)] =
      (([((1 : ℚ), RecognitionOutcome.text "ab"),
        ((1 : ℚ), RecognitionOutcome.noSpeech)]).map Prod.fst).sum :=
  ⟨by simp, final_offset_sums_durations _ (by simp)⟩

/-- C8: for an input sequence with non-negative durations and no `ServiceError`
outcome, the onsets of the aligner output are non-decreasing in output order. -/
theorem onsets_monotone_without_service_errors (chunks : List (ℚ × RecognitionOutcome))
    (hd : ∀ p ∈ chunks, 0 ≤ p.1)
    (he : ∀ p ∈ chunks, ∀ m, p.2 ≠ RecognitionOutcome.serviceError m) :
    ((split_audio_by_characters chunks).map CharTime.onset).Pairwise (· ≤ ·) :=
  List.pairwise_map.mpr (alignFrom_pairwise chunks 0 hd)

/-- Witness for `onsets_monotone_without_service_errors` on a text chunk and a
no-speech chunk of duration 1 each. -/
theorem onsets_monotone_without_service_errors_witness :
    (∀ p ∈ [((1 : ℚ), RecognitionOutcome.text "ab"), ((1 : ℚ), RecognitionOutcome.noSpeech)],
      0 ≤ p.1) ∧
    (∀ p ∈ [((1 : ℚ), RecognitionOutcome.text "ab"), ((1 : ℚ), RecognitionOutcome.noSpeech)],
      ∀ m, p.2 ≠ RecognitionOutcome.serviceError m) ∧
    ((split_audio_by_characters
        [((1 : ℚ), RecognitionOutcome.text "ab"), ((1 : ℚ), RecognitionOutcome.noSpeech)]).map
      CharTime.onset).Pairwise (· ≤ ·) :=
  ⟨by simp, by simp, onsets_monotone_without_service_errors _ (by simp) (by simp)⟩

/-- C9 counterexample: the failure markers are not distinct from every raw
recognized text — when the service's success text is exactly "[Unrecognized]",
the wrapper returns the same string as for the no-speech failure. -/
theorem marker_collides_with_success_text :
    recognize_speech (GoogleResult.success "[Unrecognized]") =
      recognize_speech GoogleResult.unknownValueError := rfl

/-- C9 (amended): the wrapper maps the two caught failure kinds to the markers
"[Unrecognized]" and "[Error: {e}]", which are distinct from each other for
every message `e`; a marker can however coincide with a raw recognized success
text, since successful text is returned verbatim. -/
theorem failure_markers_distinct (e : String) :
    recognize_speech GoogleResult.unknownValueError = "[Unrecognized]" ∧
    recognize_speech (GoogleResult.requestError e) = "[Error: " ++ e ++ "]" ∧
    recognize_speech GoogleResult.unknownValueError ≠
      recognize_speech (GoogleResult.requestError e) := by
  refine ⟨rfl, rfl, ?_⟩
  intro h
  have h2 := congrArg (fun s => s.data[1]?) h
  simp only [recognize_speech, errorSymbol, String.data_append] at h2
  simp [List.getElem?_append] at h2

/-- C10: for every input with non-negative durations — `ServiceError` outcomes
included — the output onsets are non-decreasing: the `ServiceError` branch
advances the offset by exactly zero, never by a negative amount. -/
theorem onsets_monotone_with_service_errors (chunks : List (ℚ × RecognitionOutcome))
    (hd : ∀ p ∈ chunks, 0 ≤ p.1) :
    ((split_audio_by_characters chunks).map CharTime.onset).Pairwise (· ≤ ·) ∧
    ∀ t d : ℚ, ∀ m : String,
      (alignChunk t (d, RecognitionOutcome.serviceError m)).2 = t :=
  ⟨List.pairwise_map.mpr (alignFrom_pairwise chunks 0 hd), fun t _ _ => rfl⟩

/-- Witness for `onsets_monotone_with_service_errors` on an input that contains a
`ServiceError` chunk between two other chunks. -/
theorem onsets_monotone_with_service_errors_witness :
    (∀ p ∈ [((1 : ℚ), RecognitionOutcome.text "ab"),
        ((1 : ℚ), RecognitionOutcome.serviceError "boom"),
        ((1 : ℚ), RecognitionOutcome.noSpeech)], 0 ≤ p.1) ∧
    (((split_audio_by_characters [((1 : ℚ), RecognitionOutcome.text "ab"),
        ((1 : ℚ), RecognitionOutcome.serviceError "boom"),
        ((1 : ℚ), RecognitionOutcome.noSpeech)]).map CharTime.onset).Pairwise (· ≤ ·) ∧
      ∀ t d : ℚ, ∀ m : String,
        (alignChunk t (d, RecognitionOutcome.serviceError m)).2 = t) :=
  ⟨by simp, onsets_monotone_with_service_errors _ (by simp)⟩
